import Mathlib

/-!
Shallow embedding of the Vicsek simulation engine (`src/vicsek.py`, version 1.7.4):
agents, the neighbour query with its predation side effect, the interaction rule
`next_step`, the population `Group` with its stepping loop `run`, and the order
parameter.  Python floats are modelled as real numbers and numpy arrays as lists
of reals.  The stream of draws produced by `np.random.random(dim)` is passed in
as an explicit oracle `rand : ℕ → ℝ`.  A Python scalar division by zero raises
`ZeroDivisionError`; the one place a claim depends on that behaviour
(`order_parameter` on a stationary population) is modelled with `Option`, and
the constructor paths that raise `DimensionError` are modelled with `Except`.
-/

namespace Vicsek

noncomputable section

/-- Componentwise sum of two numpy-style vectors (`u + v`). -/
def vadd (u v : List ℝ) : List ℝ := List.zipWith (fun x y => x + y) u v

/-- Componentwise difference of two numpy-style vectors (`u - v`). -/
def vsub (u v : List ℝ) : List ℝ := List.zipWith (fun x y => x - y) u v

/-- Scalar multiple of a numpy-style vector (`c * v`). -/
def smul (c : ℝ) (v : List ℝ) : List ℝ := v.map (fun x => c * x)

/-- Componentwise division of a vector by a scalar (`v / c`). -/
def vdiv (v : List ℝ) (c : ℝ) : List ℝ := v.map (fun x => x / c)

/-- Embeds `np.zeros(n)`. -/
def zeros (n : ℕ) : List ℝ := List.replicate n 0

/-- Embeds `sum(vect ** 2)` from the module-level `norm` function. -/
def sqnorm (v : List ℝ) : ℝ := (v.map (fun x => x ^ 2)).sum

/-- Embeds the module-level `norm(vect) = math.sqrt(sum(vect ** 2))`. -/
def norm (v : List ℝ) : ℝ := Real.sqrt (sqnorm v)

/-- Python's `%` on reals with a positive modulus: `x - m * floor (x / m)`. -/
def pymod (x m : ℝ) : ℝ := x - m * (⌊x / m⌋ : ℤ)

/-- Embeds `np.angle(v[0] + 1j * v[1])`, the argument of a complex number in `(-π, π]`. -/
def np_angle (v : List ℝ) : ℝ :=
  Complex.arg ((v.getD 0 0 : ℂ) + (v.getD 1 0 : ℂ) * Complex.I)

/-- One simulated particle, mirroring the fields set by `Agent.__init__`. -/
structure Agent where
  position : List ℝ
  speed : List ℝ
  velocity : ℝ
  noise : ℝ
  sight : ℝ
  field_sight : ℝ
  agent_type : ℤ
  fear : ℝ
  max_velocity : ℝ

/-- Embeds `Agent.__init__`: the stored `field_sight` is the constructor argument
halved, and `max_velocity` is the construction speed, doubled for predators
(`agent_type == 1`). -/
def Agent.init (position speed : List ℝ) (velocity noise sight field_sight : ℝ)
    (agent_type : ℤ) (fear : ℝ) : Agent :=
  { position := position
    speed := speed
    velocity := velocity
    noise := noise
    sight := sight
    field_sight := field_sight / 2
    agent_type := agent_type
    fear := fear
    max_velocity := if agent_type = 1 then velocity * 2 else velocity }

/-- Embeds `Agent.copy`, which feeds the stored fields back through the
constructor (so the stored `field_sight` gets halved again). -/
def Agent.copy (a : Agent) : Agent :=
  Agent.init a.position a.speed a.velocity a.noise a.sight a.field_sight a.agent_type a.fear

/-- Embeds `Agent.__sub__`: the Euclidean distance between two agents. -/
def dist (a b : Agent) : ℝ := norm (vsub a.position b.position)

/-- Embeds `Agent.__eq__`: two agents compare equal when their positions do. -/
def agent_eq (a b : Agent) : Prop := a.position = b.position

instance (a b : Agent) : Decidable (agent_eq a b) :=
  inferInstanceAs (Decidable (a.position = b.position))

/-- Embeds the boundary loop at the end of `Agent.next_step`: a component that
exceeds the half-length is set to the opposite edge, a component below the
negative half-length is set to the positive edge. -/
def wrap_axis (length : ℝ) (x : ℝ) : ℝ :=
  if x > length then -length else if x < -length then length else x

/-- Applies `wrap_axis` to the first `dim` components (`for i in range(dim)`),
starting at component index `i`. -/
def wrap_vec (length : ℝ) (dim : ℕ) : List ℝ → ℕ → List ℝ
  | [], _ => []
  | x :: rest, i => (if i < dim then wrap_axis length x else x) :: wrap_vec length dim rest (i + 1)

/-- One iteration of the accumulation loop of `Agent.next_step`: `a` is the agent
being updated, `n` is `len(neighbours)`, and the state is
`(average_speed, average_velocity, nb_neighbours)`. -/
def contribute (a : Agent) (n : ℕ) (acc : List ℝ × ℝ × ℕ) (agent : Agent) : List ℝ × ℝ × ℕ :=
  let avs := acc.1
  let avv := if agent.agent_type ≠ 3 then acc.2.1 + agent.velocity else acc.2.1
  let nb := if agent.agent_type ≠ 3 then acc.2.2 + 1 else acc.2.2
  if agent.agent_type = 0 then
    if a.agent_type ≠ 1 then (vadd avs agent.speed, avv, nb)
    else (vadd avs (smul (1 / dist a agent) (vsub agent.position a.position)),
          avv + agent.velocity / 4, nb)
  else if agent.agent_type = 1 then
    if a.agent_type ≠ 1 then
      (vadd avs (smul (a.fear * n) (vsub a.position agent.position)), avv, nb)
    else (vadd avs agent.speed, avv, nb)
  else if agent.agent_type = 2 then
    if a.agent_type ≠ 1 then (vadd avs (smul 5 agent.speed), avv, nb)
    else (vadd avs (smul (1 / dist a agent) (vsub agent.position a.position)),
          avv + agent.velocity / 4, nb)
  else if agent.agent_type = 3 then
    (vadd avs (smul ((n : ℝ) * 100) (vsub a.position agent.position)), avv, nb)
  else (avs, avv, nb)

/-- The accumulation loop of `Agent.next_step` over the whole neighbour list. -/
def accumulate (a : Agent) (neighbours : List Agent) (dim : ℕ) : List ℝ × ℝ × ℕ :=
  neighbours.foldl (contribute a neighbours.length) (zeros dim, 0, 0)

/-- The new (not yet normalised) direction vector computed by `Agent.next_step`:
the accumulated `average_speed` divided by `nb_neighbours`, plus the per-axis
uniform noise term `(noise_max - noise_min) * np.random.random(dim) + noise_min`. -/
def raw_speed (a : Agent) (neighbours : List Agent) (dim : ℕ) (rand : ℕ → ℝ) : List ℝ :=
  let acc := accumulate a neighbours dim
  let noise_min := -a.noise / 2
  let noise_max := a.noise / 2
  vadd (vdiv acc.1 (acc.2.2 : ℝ))
    ((List.range dim).map (fun i => (noise_max - noise_min) * rand i + noise_min))

/-- Embeds `Agent.next_step`.  The position advances with the pre-update heading,
the heading becomes the accumulated average plus noise renormalised to unit
length, the speed is the average neighbour speed clamped at `max_velocity`, and
each position component is wrapped by `wrap_axis` with the floor-halved domain
length (`length //= 2`).  In the Python source a call with no non-wall
neighbours raises `ZeroDivisionError`; the embedding is only ever used (as in
`Group.run`) on neighbour lists containing the agent itself, so that path does
not arise. -/
def next_step (a : Agent) (neighbours : List Agent) (dim : ℕ) (length : ℤ) (step : ℝ)
    (rand : ℕ → ℝ) : Agent :=
  let len2 : ℤ := Int.fdiv length 2
  let acc := accumulate a neighbours dim
  let average_velocity := acc.2.1 / (acc.2.2 : ℝ)
  let pos1 := vadd a.position (smul (a.velocity * step) a.speed)
  let sp := raw_speed a neighbours dim rand
  { a with
    position := wrap_vec ((len2 : ℝ)) dim pos1 0
    speed := vdiv sp (norm sp)
    velocity := if average_velocity > a.max_velocity then a.max_velocity else average_velocity }

/-- Error raised by the `Group` constructor and by `Group.add_agent` when a
dimension check fails. -/
inductive PyErr where
  | dimensionError

/-- Population state, mirroring the attributes set by `Group.__init__`. -/
structure Group where
  agents : List Agent
  dead_agents : List Agent
  nb_agents : ℕ
  length : ℤ
  dimension : ℕ
  density : ℝ

/-- Embeds `Group.__init__`: rejects a dimension outside `{2, 3}` and any agent
whose position or speed length differs from it, then records the live count and
the derived density `nb_agents / length ** dimension`. -/
def Group.init (agents : List Agent) (length : ℤ) (dim : ℕ) : Except PyErr Group :=
  if ¬(dim = 2 ∨ dim = 3) then .error .dimensionError
  else if ¬∀ a ∈ agents, a.position.length = dim ∧ a.speed.length = dim then
    .error .dimensionError
  else
    .ok { agents := agents
          dead_agents := []
          nb_agents := agents.length
          length := length
          dimension := dim
          density := (agents.length : ℝ) / (length : ℝ) ^ dim }

/-- Embeds `Group.copy`: clones every agent through `Agent.copy` and feeds the
clones back through the constructor. -/
def Group.copy (g : Group) : Except PyErr Group :=
  Group.init (g.agents.map Agent.copy) g.length g.dimension

/-- Embeds `Group.add_agent`: dimension-checks the agent, appends a deep copy,
bumps the live count and recomputes the density. -/
def add_agent (g : Group) (a : Agent) : Except PyErr Group :=
  if ¬(a.position.length = g.dimension ∧ a.speed.length = g.dimension) then
    .error .dimensionError
  else
    .ok { g with
          agents := g.agents ++ [a.copy]
          nb_agents := g.nb_agents + 1
          density := ((g.nb_agents : ℝ) + 1) / (g.length : ℝ) ^ g.dimension }

/-- Builds one transient wall agent of `Group.get_neighbours`: zero speed and
heading, `agent_type = 3`, and the default `fear = 1`. -/
def wall_agent (dim : ℕ) (position : List ℝ) : Agent :=
  Agent.init position (zeros dim) 0 0 0 0 3 1

/-- The four transient wall agents synthesized by `Group.get_neighbours` in two
dimensions; `length` is already the half domain length.  The source builds the
third and the fourth agent with the same position `[x, length]`. -/
def wall_agents_2d (targeted : Agent) (length : ℝ) : List Agent :=
  [ wall_agent 2 [length, targeted.position.getD 1 0]
  , wall_agent 2 [-length, targeted.position.getD 1 0]
  , wall_agent 2 [targeted.position.getD 0 0, length]
  , wall_agent 2 [targeted.position.getD 0 0, length] ]

/-- The six transient wall agents synthesized by `Group.get_neighbours` in three
dimensions. -/
def wall_agents_3d (targeted : Agent) (length : ℝ) : List Agent :=
  [ wall_agent 3 [length, targeted.position.getD 1 0, targeted.position.getD 2 0]
  , wall_agent 3 [-length, targeted.position.getD 1 0, targeted.position.getD 2 0]
  , wall_agent 3 [targeted.position.getD 0 0, -length, targeted.position.getD 2 0]
  , wall_agent 3 [targeted.position.getD 0 0, length, targeted.position.getD 2 0]
  , wall_agent 3 [targeted.position.getD 0 0, targeted.position.getD 1 0, -length]
  , wall_agent 3 [targeted.position.getD 0 0, targeted.position.getD 1 0, length] ]

/-- Embeds the list comprehension `[agent for agent in total_agents if
(targeted_agent - agent) <= dmin]`. -/
def dist_filter (targeted : Agent) (dmin : ℝ) : List Agent → List Agent
  | [] => []
  | a :: rest =>
    if dist targeted a ≤ dmin then a :: dist_filter targeted dmin rest
    else dist_filter targeted dmin rest

/-- State threaded through the candidate scan of `Group.get_neighbours`:
the growing `dead_agents` ledger, the victim indices collected for deferred
removal, the decremented live count, and the neighbour list built so far. -/
structure ScanState where
  dead_agents : List Agent
  dead_index : List ℕ
  nb_agents : ℕ
  out : List Agent

/-- One iteration of the candidate scan of `Group.get_neighbours` (the
`check_field` branch in two dimensions): `full_length` is `self.length`,
`index` the enumeration counter.  A predator `targeted` records any live
non-predator, non-wall candidate strictly within `self.length / 25` as dead;
every candidate other than `targeted` itself then passes the distance and
field-of-view tests, the heading angle being computed by the source as
`np.angle(...) % 2 * math.pi`. -/
def scan_step (full_length : ℝ) (dmin : ℝ) (targeted : Agent) (index : ℕ) (st : ScanState)
    (a : Agent) : ScanState :=
  let st1 :=
    if targeted.agent_type = 1 ∧ ¬(a.agent_type = 1 ∨ a.agent_type = 3) ∧
        dist targeted a < full_length / 25 ∧ index < st.nb_agents then
      { st with
        dead_agents := st.dead_agents ++ [a.copy]
        dead_index := st.dead_index ++ [index]
        nb_agents := st.nb_agents - 1 }
    else st
  if ¬agent_eq a targeted then
    let pos := vsub a.position targeted.position
    let angle_spd := pymod (np_angle targeted.speed) 2 * Real.pi
    let angle_pos := pymod (np_angle pos) (2 * Real.pi)
    if a.agent_type ≠ 3 then
      if dist targeted a ≤ dmin ∧
          (a.agent_type = 1 ∨ |angle_spd - angle_pos| ≤ targeted.field_sight) then
        { st1 with out := st1.out ++ [a] }
      else st1
    else if dist targeted a ≤ full_length / 25 then { st1 with out := st1.out ++ [a] }
    else st1
  else { st1 with out := st1.out ++ [a] }

/-- The candidate scan of `Group.get_neighbours` over the whole candidate
list. -/
def neighbour_scan (full_length : ℝ) (dmin : ℝ) (targeted : Agent) :
    List Agent → ℕ → ScanState → ScanState
  | [], _, st => st
  | a :: rest, index, st =>
    neighbour_scan full_length dmin targeted rest (index + 1)
      (scan_step full_length dmin targeted index st a)

/-- Embeds `Group.get_neighbours`, additionally returning the collected victim
indices (used by `run` to track the in-place mutation of the targeted agent).
The first component is the neighbour list, the second the group after the
deferred `pop` calls on `dead_index`. -/
def get_neighbours_aux (g : Group) (targeted : Agent) (dmin : ℝ)
    (check_field check_wall : Bool) : List Agent × Group × List ℕ :=
  let length : ℝ := (g.length : ℝ) / 2
  let wall_agents :=
    if g.dimension = 2 then wall_agents_2d targeted length else wall_agents_3d targeted length
  let total_agents := if check_wall then g.agents ++ wall_agents else g.agents
  if ¬check_field = true ∨ g.dimension = 3 then
    (dist_filter targeted dmin total_agents, g, [])
  else
    let st := neighbour_scan (g.length : ℝ) dmin targeted total_agents 0
      ⟨g.dead_agents, [], g.nb_agents, []⟩
    (st.out,
     { g with
       agents := st.dead_index.foldl (fun l i => l.eraseIdx i) g.agents
       dead_agents := st.dead_agents
       nb_agents := st.nb_agents },
     st.dead_index)

/-- The pair actually returned by `Group.get_neighbours`: the neighbour list and
the mutated group. -/
def get_neighbours (g : Group) (targeted : Agent) (dmin : ℝ)
    (check_field check_wall : Bool) : List Agent × Group :=
  ((get_neighbours_aux g targeted dmin check_field check_wall).1,
   (get_neighbours_aux g targeted dmin check_field check_wall).2.1)

/-- Position of the Python object originally at list index `t` after the
sequential `pop` calls on `idxs`: a pop below it shifts it down, a pop at its
current index detaches it from the list. -/
def shift_index (idxs : List ℕ) (t : ℕ) : Option ℕ :=
  idxs.foldl
    (fun acc p =>
      match acc with
      | none => none
      | some j => if p < j then some (j - 1) else if p = j then none else some j)
    (some t)

/-- Placeholder agent returned by the guarded list accesses below; it is never
actually produced because every access is guarded by an index bound. -/
def dummyAgent : Agent :=
  { position := [], speed := [], velocity := 0, noise := 0, sight := 0, field_sight := 0,
    agent_type := 0, fear := 0, max_velocity := 0 }

/-- One sweep of `Group.run` (`for agent in self.agents`), mirroring Python's
list iteration over the collection while `get_neighbours` mutates it: the
iterator index advances by one per processed element over the current list
(`g.agents.getD i dummyAgent` equals the `i`-th agent because the access is
guarded by `i < g.agents.length`).  The updated agent is written back at its
shifted index (Python mutates the object in place); `rand i k` is the noise
draw for axis `k` of the agent processed at iterator index `i`.  The fuel
argument only bounds the recursion and is chosen in `run` so that it never
runs out before the index leaves the list. -/
def run_iter (check_field check_wall : Bool) (step : ℝ) (rand : ℕ → ℕ → ℝ) :
    ℕ → ℕ → Group → Group
  | 0, _, g => g
  | fuel + 1, i, g =>
    if i < g.agents.length then
      let a := g.agents.getD i dummyAgent
      if a.agent_type ≠ 3 then
        let res := get_neighbours_aux g a a.sight check_field check_wall
        let a2 := next_step a res.1 g.dimension g.length step (rand i)
        let g2 :=
          match shift_index res.2.2 i with
          | some j => { res.2.1 with agents := res.2.1.agents.set j a2 }
          | none => res.2.1
        run_iter check_field check_wall step rand fuel (i + 1) g2
      else run_iter check_field check_wall step rand fuel (i + 1) g
    else g

/-- Embeds `Group.run`: `steps` sequential sweeps over the live agents;
`rand s i k` is the noise draw for axis `k` of the agent at iterator index `i`
during sweep `s`. -/
def run (g : Group) (steps : ℕ) (check_field check_wall : Bool) (step : ℝ)
    (rand : ℕ → ℕ → ℕ → ℝ) : Group :=
  (List.range steps).foldl
    (fun g s => run_iter check_field check_wall step (rand s) (g.agents.length + 1) 0 g) g

/-- Sum of the agents' velocity vectors `agent.velocity * agent.speed`, as
accumulated by the loop in `Group.order_parameter`. -/
def speed_sum (agents : List Agent) (dim : ℕ) : List ℝ :=
  agents.foldl (fun s a => vadd s (smul a.velocity a.speed)) (zeros dim)

/-- Sum of the norms of the agents' velocity vectors, the scalar accumulator of
`Group.order_parameter`. -/
def total_speed (agents : List Agent) : ℝ :=
  agents.foldl (fun s a => s + norm (smul a.velocity a.speed)) 0

/-- Embeds `Group.order_parameter`: `(1 / velocity) * norm(speed)`.  When the
accumulated total speed is zero the Python source raises `ZeroDivisionError`,
modelled as `none`. -/
def order_parameter (g : Group) : Option ℝ :=
  if total_speed g.agents = 0 then none
  else some (1 / total_speed g.agents * norm (speed_sum g.agents g.dimension))

/-- An operation applied to a population after construction: either
`add_agent` or `run`. -/
inductive Op where
  | add (a : Agent)
  | run (steps : ℕ) (check_field check_wall : Bool) (step : ℝ) (rand : ℕ → ℕ → ℕ → ℝ)

/-- Applies one operation; a raised `DimensionError` leaves the group unchanged
(the Python method raises before mutating anything). -/
def apply_op (g : Group) : Op → Group
  | .add a =>
    match add_agent g a with
    | .ok g2 => g2
    | .error _ => g
  | .run steps cf cw dt rand => run g steps cf cw dt rand

/-- Applies a sequence of operations in order. -/
def apply_ops (g : Group) (ops : List Op) : Group := ops.foldl apply_op g

/-- Number of `add` operations in a sequence. -/
def num_adds : List Op → ℕ
  | [] => 0
  | .add _ :: rest => num_adds rest + 1
  | .run _ _ _ _ _ :: rest => num_adds rest

/-! Basic facts about the list-vector operations. -/

lemma sqnorm_cons (x : ℝ) (xs : List ℝ) : sqnorm (x :: xs) = x ^ 2 + sqnorm xs := by
  simp [sqnorm]

lemma sqnorm_nonneg (v : List ℝ) : 0 ≤ sqnorm v := by
  induction v with
  | nil => simp [sqnorm]
  | cons x xs ih => rw [sqnorm_cons]; exact add_nonneg (sq_nonneg x) ih

lemma norm_nonneg' (v : List ℝ) : 0 ≤ norm v := Real.sqrt_nonneg _

lemma getD_vadd (u v : List ℝ) (h : u.length = v.length) (i : ℕ) :
    (vadd u v).getD i 0 = u.getD i 0 + v.getD i 0 := by
  induction u generalizing v i with
  | nil =>
    cases v with
    | nil => simp [vadd]
    | cons b bs => simp at h
  | cons a as ih =>
    cases v with
    | nil => simp at h
    | cons b bs =>
      cases i with
      | zero => simp [vadd]
      | succ n => simpa [vadd] using ih bs (by simpa using h) n

/-- View of a list of reals as a point of a Euclidean space. -/
def toE (n : ℕ) (l : List ℝ) : EuclideanSpace ℝ (Fin n) := fun i => l.getD i 0

lemma sum_sq_getD (l : List ℝ) : (∑ i : Fin l.length, l.getD (i : ℕ) 0 ^ 2) = sqnorm l := by
  induction l with
  | nil => simp [sqnorm]
  | cons x xs ih =>
    rw [show (x :: xs).length = xs.length + 1 from rfl, Fin.sum_univ_succ, sqnorm_cons, ← ih]
    simp

lemma norm_toE (n : ℕ) (l : List ℝ) (h : l.length = n) : norm l = ‖toE n l‖ := by
  subst h
  rw [EuclideanSpace.norm_eq]
  unfold Vicsek.norm
  rw [← sum_sq_getD]
  congr 1
  refine Finset.sum_congr rfl fun i _ => ?_
  simp [toE, Real.norm_eq_abs, sq_abs]

lemma toE_vadd (n : ℕ) (u v : List ℝ) (h : u.length = v.length) :
    toE n (vadd u v) = toE n u + toE n v := by
  funext i
  simpa [toE] using getD_vadd u v h (i : ℕ)

lemma length_vadd (u v : List ℝ) (h : u.length = v.length) : (vadd u v).length = u.length := by
  simp [vadd, h]

lemma length_smul (c : ℝ) (v : List ℝ) : (smul c v).length = v.length := by simp [smul]

/-- Triangle inequality for the embedded `norm` on equal-length vectors. -/
lemma norm_vadd_le (u v : List ℝ) (h : u.length = v.length) :
    norm (vadd u v) ≤ norm u + norm v := by
  rw [norm_toE u.length (vadd u v) (length_vadd u v h), norm_toE u.length u rfl,
    norm_toE u.length v h.symm, toE_vadd u.length u v h]
  exact norm_add_le _ _

lemma sqnorm_smul (c : ℝ) (v : List ℝ) : sqnorm (smul c v) = c ^ 2 * sqnorm v := by
  induction v with
  | nil => simp [sqnorm, smul]
  | cons x xs ih =>
    have hc : smul c (x :: xs) = (c * x) :: smul c xs := by simp [smul]
    rw [hc, sqnorm_cons, sqnorm_cons, ih]
    ring

lemma norm_smul' (c : ℝ) (v : List ℝ) : norm (smul c v) = |c| * norm v := by
  unfold Vicsek.norm
  rw [sqnorm_smul, Real.sqrt_mul (sq_nonneg c), Real.sqrt_sq_eq_abs]

lemma sqnorm_vdiv (c : ℝ) (v : List ℝ) : sqnorm (vdiv v c) = sqnorm v / c ^ 2 := by
  induction v with
  | nil => simp [sqnorm, vdiv]
  | cons x xs ih =>
    have hc : vdiv (x :: xs) c = (x / c) :: vdiv xs c := by simp [vdiv]
    rw [hc, sqnorm_cons, sqnorm_cons, ih, div_pow]
    ring

/-- Dividing a vector of nonzero norm by its norm yields a unit vector. -/
lemma norm_vdiv_self (v : List ℝ) (h : norm v ≠ 0) : norm (vdiv v (norm v)) = 1 := by
  have hsq : Real.sqrt (sqnorm v) ^ 2 = sqnorm v := Real.sq_sqrt (sqnorm_nonneg v)
  have hs : sqnorm v ≠ 0 := by
    intro h0
    exact h (by unfold Vicsek.norm; rw [h0, Real.sqrt_zero])
  unfold Vicsek.norm
  rw [sqnorm_vdiv, hsq, div_self hs, Real.sqrt_one]

lemma norm_zeros (n : ℕ) : norm (zeros n) = 0 := by
  unfold Vicsek.norm
  have h : sqnorm (zeros n) = 0 := by
    simp [zeros, sqnorm, List.map_replicate, List.sum_replicate]
  rw [h, Real.sqrt_zero]

lemma length_zeros (n : ℕ) : (zeros n).length = n := by simp [zeros]

lemma foldl_add_eq (f : Agent → ℝ) (l : List Agent) :
    ∀ c : ℝ, l.foldl (fun s a => s + f a) c = c + (l.map f).sum := by
  induction l with
  | nil => intro c; simp
  | cons a as ih =>
    intro c
    rw [List.foldl_cons, ih, List.map_cons, List.sum_cons]
    ring

lemma total_speed_eq (agents : List Agent) :
    total_speed agents = (agents.map (fun a => norm (smul a.velocity a.speed))).sum := by
  unfold total_speed
  rw [foldl_add_eq, zero_add]

lemma total_speed_nonneg (agents : List Agent) : 0 ≤ total_speed agents := by
  rw [total_speed_eq]
  refine List.sum_nonneg fun x hx => ?_
  obtain ⟨a, _, rfl⟩ := List.mem_map.mp hx
  exact norm_nonneg' _

lemma speed_sum_le (dim : ℕ) (l : List Agent) :
    ∀ v : List ℝ, v.length = dim → (∀ a ∈ l, a.speed.length = dim) →
      (l.foldl (fun s a => vadd s (smul a.velocity a.speed)) v).length = dim ∧
      norm (l.foldl (fun s a => vadd s (smul a.velocity a.speed)) v) ≤
        norm v + (l.map (fun a => norm (smul a.velocity a.speed))).sum := by
  induction l with
  | nil =>
    intro v hv _
    exact ⟨hv, by simp⟩
  | cons a as ih =>
    intro v hv hall
    have hw : (smul a.velocity a.speed).length = dim := by
      rw [length_smul]; exact hall a (List.mem_cons_self a as)
    have hlenv : v.length = (smul a.velocity a.speed).length := by rw [hv, hw]
    have hva : (vadd v (smul a.velocity a.speed)).length = dim := by
      rw [length_vadd v _ hlenv, hv]
    obtain ⟨hlen, hle⟩ :=
      ih (vadd v (smul a.velocity a.speed)) hva fun b hb => hall b (List.mem_cons_of_mem a hb)
    refine ⟨hlen, ?_⟩
    rw [List.foldl_cons, List.map_cons, List.sum_cons]
    calc norm (as.foldl (fun s b => vadd s (smul b.velocity b.speed))
            (vadd v (smul a.velocity a.speed))) ≤
        norm (vadd v (smul a.velocity a.speed)) +
          (as.map (fun b => norm (smul b.velocity b.speed))).sum := hle
      _ ≤ (norm v + norm (smul a.velocity a.speed)) +
            (as.map (fun b => norm (smul b.velocity b.speed))).sum :=
          add_le_add_right (norm_vadd_le v _ hlenv) _
      _ = norm v + (norm (smul a.velocity a.speed) +
            (as.map (fun b => norm (smul b.velocity b.speed))).sum) := by ring

/-! Concrete populations used to instantiate hypotheses of the theorems below. -/

/-- A single moving normal agent (heading `[1, 0]`, speed 1) in a 2D domain of
length 50. -/
def movingAgent : Agent := Agent.init [0, 0] [1, 0] 1 0 5 Real.pi 0 1

/-- The population holding only `movingAgent`. -/
def movingGroup : Group :=
  { agents := [movingAgent], dead_agents := [], nb_agents := 1, length := 50, dimension := 2,
    density := 1 / 2500 }

/-- A single stationary agent (speed 0) in a 2D domain of length 50. -/
def stillAgent : Agent := Agent.init [0, 0] [1, 0] 0 0 5 Real.pi 0 1

/-- The population holding only `stillAgent`. -/
def stillGroup : Group :=
  { agents := [stillAgent], dead_agents := [], nb_agents := 1, length := 50, dimension := 2,
    density := 1 / 2500 }

lemma total_speed_movingGroup : total_speed movingGroup.agents = 1 := by
  have h : smul movingAgent.velocity movingAgent.speed = [1, 0] := by
    simp [movingAgent, Agent.init, smul]
  simp only [movingGroup, total_speed, List.foldl_cons, List.foldl_nil, h, zero_add]
  unfold Vicsek.norm
  have hs : sqnorm [(1 : ℝ), 0] = 1 := by norm_num [sqnorm]
  rw [hs, Real.sqrt_one]

/-- C3: with a nonzero total speed, the order parameter is the norm of the
summed velocity vectors divided by the summed norms, and it lies in `[0, 1]`. -/
theorem order_parameter_formula_and_range (g : Group)
    (hdim : ∀ a ∈ g.agents, a.speed.length = g.dimension)
    (hne : total_speed g.agents ≠ 0) :
    order_parameter g =
      some (norm (speed_sum g.agents g.dimension) / total_speed g.agents) ∧
    0 ≤ norm (speed_sum g.agents g.dimension) / total_speed g.agents ∧
    norm (speed_sum g.agents g.dimension) / total_speed g.agents ≤ 1 := by
  have h0 : 0 ≤ total_speed g.agents := total_speed_nonneg _
  have hpos : 0 < total_speed g.agents := lt_of_le_of_ne h0 (Ne.symm hne)
  have hbound : norm (speed_sum g.agents g.dimension) ≤ total_speed g.agents := by
    have h := (speed_sum_le g.dimension g.agents (zeros g.dimension) (length_zeros _) hdim).2
    rw [total_speed_eq]
    unfold speed_sum
    calc norm (g.agents.foldl (fun s a => vadd s (smul a.velocity a.speed)) (zeros g.dimension))
        ≤ norm (zeros g.dimension) +
            (g.agents.map (fun a => norm (smul a.velocity a.speed))).sum := h
      _ = (g.agents.map (fun a => norm (smul a.velocity a.speed))).sum := by
          rw [norm_zeros, zero_add]
  refine ⟨?_, div_nonneg (norm_nonneg' _) h0, (div_le_one hpos).mpr hbound⟩
  unfold order_parameter
  rw [if_neg hne, one_div_mul_eq_div]

/-- Witness for `order_parameter_formula_and_range` at the one-agent population
`movingGroup`. -/
theorem order_parameter_formula_and_range_witness :
    (∀ a ∈ movingGroup.agents, a.speed.length = movingGroup.dimension) ∧
    total_speed movingGroup.agents ≠ 0 ∧
    order_parameter movingGroup =
      some (norm (speed_sum movingGroup.agents movingGroup.dimension) /
        total_speed movingGroup.agents) := by
  have h1 : ∀ a ∈ movingGroup.agents, a.speed.length = movingGroup.dimension := by
    intro a ha
    simp only [movingGroup, List.mem_singleton] at ha
    subst ha
    simp [movingAgent, Agent.init, movingGroup]
  have h2 : total_speed movingGroup.agents ≠ 0 := by
    rw [total_speed_movingGroup]; norm_num
  exact ⟨h1, h2, (order_parameter_formula_and_range movingGroup h1 h2).1⟩

/-- C4 (amended): on a population whose agents are all stationary, the order
parameter computation divides by zero; the Python source raises a
`ZeroDivisionError` instead of returning 0, modelled here as `none`. -/
theorem order_parameter_stationary (g : Group) (h : ∀ a ∈ g.agents, a.velocity = 0) :
    order_parameter g = none := by
  have ht : total_speed g.agents = 0 := by
    rw [total_speed_eq]
    refine List.sum_eq_zero fun x hx => ?_
    obtain ⟨a, ha, rfl⟩ := List.mem_map.mp hx
    rw [h a ha, norm_smul']
    simp
  unfold order_parameter
  rw [if_pos ht]

lemma total_speed_stillGroup : total_speed stillGroup.agents = 0 := by
  have h : smul stillAgent.velocity stillAgent.speed = [0, 0] := by
    simp [stillAgent, Agent.init, smul]
  simp only [stillGroup, total_speed, List.foldl_cons, List.foldl_nil, h, zero_add]
  unfold Vicsek.norm
  have hs : sqnorm [(0 : ℝ), 0] = 0 := by norm_num [sqnorm]
  rw [hs, Real.sqrt_zero]

/-- Counterexample to C4 as stated: on a stationary one-agent population the
order parameter is not the value 0 — the division faults (`none`), it does not
return 0. -/
theorem order_parameter_stationary_counterexample :
    order_parameter stillGroup = none ∧ order_parameter stillGroup ≠ some 0 := by
  have h0 : order_parameter stillGroup = none := by
    unfold order_parameter
    rw [if_pos total_speed_stillGroup]
  exact ⟨h0, by rw [h0]; simp⟩

/-- Witness for `order_parameter_stationary` at `stillGroup`. -/
theorem order_parameter_stationary_witness :
    (∀ a ∈ stillGroup.agents, a.velocity = 0) ∧ order_parameter stillGroup = none := by
  have h : ∀ a ∈ stillGroup.agents, a.velocity = 0 := by
    intro a ha
    simp only [stillGroup, List.mem_singleton] at ha
    subst ha
    simp [stillAgent, Agent.init]
  exact ⟨h, order_parameter_stationary stillGroup h⟩

lemma zeros_two : zeros 2 = [0, 0] := rfl

lemma norm_pair (x y : ℝ) : norm [x, y] = Real.sqrt (x ^ 2 + y ^ 2) := by
  unfold Vicsek.norm
  norm_num [sqnorm]

lemma norm_one_zero : norm [(1 : ℝ), 0] = 1 := by
  rw [norm_pair]
  norm_num [Real.sqrt_one]

lemma norm_zero_zero : norm [(0 : ℝ), 0] = 0 := by
  rw [norm_pair]
  norm_num [Real.sqrt_zero]

/-- C8 (amended): whenever the accumulated direction vector (average plus
noise) is nonzero, the heading produced by `next_step` has unit norm. -/
theorem next_step_unit_heading (a : Agent) (neighbours : List Agent) (dim : ℕ) (length : ℤ)
    (step : ℝ) (rand : ℕ → ℝ) (h : norm (raw_speed a neighbours dim rand) ≠ 0) :
    norm ((next_step a neighbours dim length step rand).speed) = 1 := by
  have hs : (next_step a neighbours dim length step rand).speed =
      vdiv (raw_speed a neighbours dim rand) (norm (raw_speed a neighbours dim rand)) := rfl
  rw [hs]
  exact norm_vdiv_self _ h

/-- A normal agent one unit to the right of `movingAgent`, heading the opposite
way. -/
def opposedAgent : Agent := Agent.init [1, 0] [-1, 0] 1 0 5 Real.pi 0 1

lemma accumulate_opposed :
    accumulate movingAgent [movingAgent, opposedAgent] 2 = ([0, 0], 2, 2) := by
  norm_num [accumulate, contribute, movingAgent, opposedAgent, Agent.init, vadd, smul, zeros_two]

lemma raw_speed_opposed :
    raw_speed movingAgent [movingAgent, opposedAgent] 2 (fun _ => 0) = [0, 0] := by
  rw [raw_speed, accumulate_opposed]
  norm_num [movingAgent, Agent.init, vdiv, vadd, List.range_succ]

/-- Counterexample to C8 as stated: with two exactly opposed normal neighbours
and zero noise the accumulated direction vector is zero, so the normalisation
divides by zero (numpy yields NaN components; the real-number model yields the
zero vector) and the updated heading does not have norm 1. -/
theorem next_step_unit_heading_counterexample :
    norm ((next_step movingAgent [movingAgent, opposedAgent] 2 50 (1 / 2)
      (fun _ => 0)).speed) = 0 ∧
    norm ((next_step movingAgent [movingAgent, opposedAgent] 2 50 (1 / 2)
      (fun _ => 0)).speed) ≠ 1 := by
  have hs : (next_step movingAgent [movingAgent, opposedAgent] 2 50 (1 / 2)
      (fun _ => 0)).speed =
      vdiv (raw_speed movingAgent [movingAgent, opposedAgent] 2 (fun _ => 0))
        (norm (raw_speed movingAgent [movingAgent, opposedAgent] 2 (fun _ => 0))) := rfl
  rw [hs, raw_speed_opposed]
  have hv : vdiv [(0 : ℝ), 0] (norm [(0 : ℝ), 0]) = [0, 0] := by
    simp [vdiv]
  rw [hv, norm_zero_zero]
  norm_num

lemma accumulate_movingAgent_self :
    accumulate movingAgent [movingAgent] 2 = ([1, 0], 1, 1) := by
  norm_num [accumulate, contribute, movingAgent, Agent.init, vadd, smul, zeros_two]

lemma raw_speed_movingAgent_self :
    raw_speed movingAgent [movingAgent] 2 (fun _ => 0) = [1, 0] := by
  rw [raw_speed, accumulate_movingAgent_self]
  norm_num [movingAgent, Agent.init, vdiv, vadd, List.range_succ]

/-- Witness for `next_step_unit_heading`: a lone agent keeps a unit heading. -/
theorem next_step_unit_heading_witness :
    norm (raw_speed movingAgent [movingAgent] 2 (fun _ => 0)) ≠ 0 ∧
    norm ((next_step movingAgent [movingAgent] 2 50 (1 / 2) (fun _ => 0)).speed) = 1 := by
  have hne : norm (raw_speed movingAgent [movingAgent] 2 (fun _ => 0)) ≠ 0 := by
    rw [raw_speed_movingAgent_self, norm_one_zero]
    norm_num
  exact ⟨hne, next_step_unit_heading movingAgent [movingAgent] 2 50 (1 / 2) (fun _ => 0) hne⟩

/-- C5 (amended): the boundary handling of `next_step` sends a component that
exceeds the half length `L` to exactly the opposite edge `-L` (the overshoot is
discarded), symmetrically for the lower edge, and leaves components inside
`[-L, L]` unchanged.  Here `L` is the (nonnegative) floor-halved domain
length. -/
theorem wrap_axis_amended (L x ε : ℝ) (hL : 0 ≤ L) (hε : 0 < ε) :
    wrap_axis L (L + ε) = -L ∧ wrap_axis L (-L - ε) = L ∧
    (-L ≤ x → x ≤ L → wrap_axis L x = x) := by
  refine ⟨?_, ?_, fun h1 h2 => ?_⟩
  · unfold wrap_axis
    rw [if_pos (by linarith)]
  · unfold wrap_axis
    rw [if_neg (by linarith), if_pos (by linarith)]
  · unfold wrap_axis
    rw [if_neg (by linarith), if_neg (by linarith)]

/-- Witness for `wrap_axis_amended` at `L = 25`, `ε = 1/2`, `x = 3`. -/
theorem wrap_axis_amended_witness :
    (0 : ℝ) ≤ 25 ∧ (0 : ℝ) < 1 / 2 ∧ wrap_axis 25 (25 + 1 / 2) = -25 ∧
    wrap_axis 25 (-25 - 1 / 2) = 25 ∧ wrap_axis 25 3 = 3 := by
  have h := wrap_axis_amended 25 3 (1 / 2) (by norm_num) (by norm_num)
  exact ⟨by norm_num, by norm_num, h.1, h.2.1, h.2.2 (by norm_num) (by norm_num)⟩

/-- A normal agent about to cross the `+x` edge of the 2D length-50 domain:
after the advance its first position component is `25.5 = 50/2 + 0.5`. -/
def edgeAgent : Agent := Agent.init [25, 0] [1, 0] 1 0 5 Real.pi 0 1

/-- Counterexample to C5 as stated: the component driven to `50/2 + 1/2` is
mapped to exactly `-25`, not to `-50/2 + 1/2 = -24.5` as the claim requires. -/
theorem next_step_wrap_counterexample :
    (next_step edgeAgent [edgeAgent] 2 50 (1 / 2) (fun _ => 0)).position = [-25, 0] ∧
    (next_step edgeAgent [edgeAgent] 2 50 (1 / 2) (fun _ => 0)).position ≠
      [-(50 : ℝ) / 2 + 1 / 2, 0] := by
  have hp : (next_step edgeAgent [edgeAgent] 2 50 (1 / 2) (fun _ => 0)).position =
      wrap_vec ((Int.fdiv 50 2 : ℤ) : ℝ) 2
        (vadd edgeAgent.position (smul (edgeAgent.velocity * (1 / 2)) edgeAgent.speed)) 0 := rfl
  have hfd : ((Int.fdiv 50 2 : ℤ) : ℝ) = 25 := by norm_num [Int.fdiv]
  have hv : vadd edgeAgent.position (smul (edgeAgent.velocity * (1 / 2)) edgeAgent.speed) =
      [51 / 2, 0] := by
    norm_num [edgeAgent, Agent.init, vadd, smul]
  rw [hp, hfd, hv]
  have hw : wrap_vec (25 : ℝ) 2 [51 / 2, 0] 0 = [-25, 0] := by
    rw [wrap_vec, wrap_vec, wrap_vec]
    norm_num [wrap_axis]
  rw [hw]
  constructor
  · rfl
  · intro hcontra
    have := List.head_eq_of_cons_eq hcontra
    norm_num at this

/-! Evaluation helpers for concrete two-dimensional scenarios. -/

lemma dist_eval (a b : Agent) (x1 y1 x2 y2 : ℝ) (ha : a.position = [x1, y1])
    (hb : b.position = [x2, y2]) :
    dist a b = Real.sqrt ((x1 - x2) ^ 2 + (y1 - y2) ^ 2) := by
  unfold dist vsub
  rw [ha, hb]
  simpa using norm_pair (x1 - x2) (y1 - y2)

lemma pymod_zero (m : ℝ) : pymod 0 m = 0 := by
  simp [pymod]

lemma np_angle_pos_real (x y : ℝ) (hx : 0 ≤ x) (hy : y = 0) : np_angle [x, y] = 0 := by
  unfold np_angle
  subst hy
  simpa using Complex.arg_ofReal_of_nonneg hx

/-- A predator one tenth of a unit away from `preyAgent` in the 2D length-50
domain; the default `run` flags will make it consume the prey. -/
def predAgent : Agent := Agent.init [0, 0] [1, 0] 1 0 5 Real.pi 1 1

/-- A normal agent at distance `1/10` from `predAgent`. -/
def preyAgent : Agent := Agent.init [1 / 10, 0] [1, 0] 1 0 5 Real.pi 0 1

/-- The two-agent population `[predAgent, preyAgent]` in the 2D length-50
domain. -/
def demoGroup : Group :=
  { agents := [predAgent, preyAgent], dead_agents := [], nb_agents := 2, length := 50,
    dimension := 2, density := 2 / 2500 }

lemma demoGroup_init : Group.init [predAgent, preyAgent] 50 2 = .ok demoGroup := by
  unfold Group.init
  rw [if_neg (by norm_num), if_neg (by
    intro hcon
    refine hcon fun a ha => ?_
    rcases List.mem_pair.mp ha with h | h <;> subst h <;>
      simp [predAgent, preyAgent, Agent.init])]
  unfold demoGroup
  norm_num

lemma dist_pred_prey : dist predAgent preyAgent = 1 / 10 := by
  rw [dist_eval predAgent preyAgent 0 0 (1 / 10) 0 (by simp [predAgent, Agent.init])
    (by simp [preyAgent, Agent.init])]
  rw [show ((0 : ℝ) - 1 / 10) ^ 2 + (0 - 0) ^ 2 = (1 / 10) ^ 2 by norm_num,
    Real.sqrt_sq (by norm_num)]

@[simp] lemma predAgent_type : predAgent.agent_type = 1 := rfl
@[simp] lemma predAgent_speed : predAgent.speed = [1, 0] := rfl
@[simp] lemma predAgent_position : predAgent.position = [0, 0] := rfl
@[simp] lemma predAgent_velocity : predAgent.velocity = 1 := rfl
@[simp] lemma predAgent_noise : predAgent.noise = 0 := rfl
@[simp] lemma predAgent_sight : predAgent.sight = 5 := rfl
@[simp] lemma predAgent_field_sight : predAgent.field_sight = Real.pi / 2 := rfl
@[simp] lemma predAgent_fear : predAgent.fear = 1 := rfl

@[simp] lemma predAgent_max_velocity : predAgent.max_velocity = 2 := by
  norm_num [predAgent, Agent.init]

@[simp] lemma preyAgent_type : preyAgent.agent_type = 0 := rfl
@[simp] lemma preyAgent_speed : preyAgent.speed = [1, 0] := rfl
@[simp] lemma preyAgent_position : preyAgent.position = [1 / 10, 0] := rfl
@[simp] lemma preyAgent_velocity : preyAgent.velocity = 1 := rfl
@[simp] lemma preyAgent_noise : preyAgent.noise = 0 := rfl
@[simp] lemma preyAgent_sight : preyAgent.sight = 5 := rfl
@[simp] lemma preyAgent_field_sight : preyAgent.field_sight = Real.pi / 2 := rfl

@[simp] lemma wall_agent_type (d : ℕ) (p : List ℝ) : (wall_agent d p).agent_type = 3 := rfl

@[simp] lemma wall_agent_position (d : ℕ) (p : List ℝ) : (wall_agent d p).position = p := rfl

lemma wall_agents_demo :
    wall_agents_2d predAgent 25 =
      [wall_agent 2 [25, 0], wall_agent 2 [-25, 0], wall_agent 2 [0, 25],
       wall_agent 2 [0, 25]] := by
  simp [wall_agents_2d]

lemma dist_pred_wall_x : dist predAgent (wall_agent 2 [25, 0]) = 25 := by
  rw [dist_eval _ _ 0 0 25 0 predAgent_position (wall_agent_position 2 _)]
  rw [show ((0 : ℝ) - 25) ^ 2 + (0 - 0) ^ 2 = 25 ^ 2 by norm_num, Real.sqrt_sq (by norm_num)]

lemma dist_pred_wall_mx : dist predAgent (wall_agent 2 [-25, 0]) = 25 := by
  rw [dist_eval _ _ 0 0 (-25) 0 predAgent_position (wall_agent_position 2 _)]
  rw [show ((0 : ℝ) - -25) ^ 2 + (0 - 0) ^ 2 = 25 ^ 2 by norm_num, Real.sqrt_sq (by norm_num)]

lemma dist_pred_wall_y : dist predAgent (wall_agent 2 [0, 25]) = 25 := by
  rw [dist_eval _ _ 0 0 0 25 predAgent_position (wall_agent_position 2 _)]
  rw [show ((0 : ℝ) - 0) ^ 2 + (0 - 25) ^ 2 = 25 ^ 2 by norm_num, Real.sqrt_sq (by norm_num)]

lemma scan_demo_0 :
    scan_step 50 5 predAgent 0 ⟨[], [], 2, []⟩ predAgent = ⟨[], [], 2, [predAgent]⟩ := by
  have hkill : ¬(predAgent.agent_type = 1 ∧
      ¬(predAgent.agent_type = 1 ∨ predAgent.agent_type = 3) ∧
      dist predAgent predAgent < 50 / 25 ∧
      0 < (⟨[], [], 2, []⟩ : ScanState).nb_agents) := by norm_num
  have hself : ¬¬agent_eq predAgent predAgent :=
    not_not_intro (rfl : predAgent.position = predAgent.position)
  simp only [scan_step]
  rw [if_neg hkill, if_neg hself]
  rfl

lemma scan_demo_1 :
    scan_step 50 5 predAgent 1 ⟨[], [], 2, [predAgent]⟩ preyAgent =
      ⟨[preyAgent.copy], [1], 1, [predAgent, preyAgent]⟩ := by
  have hkill : predAgent.agent_type = 1 ∧
      ¬(preyAgent.agent_type = 1 ∨ preyAgent.agent_type = 3) ∧
      dist predAgent preyAgent < 50 / 25 ∧
      1 < (⟨[], [], 2, [predAgent]⟩ : ScanState).nb_agents := by
    refine ⟨rfl, by norm_num, ?_, by norm_num⟩
    rw [dist_pred_prey]
    norm_num
  have hne : ¬agent_eq preyAgent predAgent := by
    simp only [agent_eq, preyAgent_position, predAgent_position]
    norm_num
  have hsp : pymod (np_angle predAgent.speed) 2 * Real.pi = 0 := by
    rw [predAgent_speed, np_angle_pos_real 1 0 (by norm_num) rfl, pymod_zero, zero_mul]
  have hpos : pymod (np_angle (vsub preyAgent.position predAgent.position))
      (2 * Real.pi) = 0 := by
    have hv : vsub preyAgent.position predAgent.position = [1 / 10, 0] := by
      simp [vsub]
    rw [hv, np_angle_pos_real (1 / 10) 0 (by norm_num) rfl, pymod_zero]
  have happ : dist predAgent preyAgent ≤ 5 ∧
      (preyAgent.agent_type = 1 ∨
        |pymod (np_angle predAgent.speed) 2 * Real.pi -
          pymod (np_angle (vsub preyAgent.position predAgent.position)) (2 * Real.pi)| ≤
          predAgent.field_sight) := by
    refine ⟨by rw [dist_pred_prey]; norm_num, Or.inr ?_⟩
    rw [hsp, hpos, predAgent_field_sight]
    simpa using (by positivity : (0 : ℝ) ≤ Real.pi / 2)
  have htype : preyAgent.agent_type ≠ 3 := by norm_num
  simp only [scan_step]
  rw [if_pos hkill, if_pos hne, if_pos htype, if_pos happ]
  rfl

lemma scan_demo_wall (p : List ℝ) (i : ℕ) (st : ScanState)
    (hne : ¬agent_eq (wall_agent 2 p) predAgent)
    (hd : ¬dist predAgent (wall_agent 2 p) ≤ 50 / 25) :
    scan_step 50 5 predAgent i st (wall_agent 2 p) = st := by
  have hkill : ¬(predAgent.agent_type = 1 ∧
      ¬((wall_agent 2 p).agent_type = 1 ∨ (wall_agent 2 p).agent_type = 3) ∧
      dist predAgent (wall_agent 2 p) < 50 / 25 ∧ i < st.nb_agents) := by norm_num
  have htype : ¬(wall_agent 2 p).agent_type ≠ 3 := by norm_num
  simp only [scan_step]
  rw [if_neg hkill, if_pos hne, if_neg htype, if_neg hd]

lemma scan_demo :
    neighbour_scan 50 5 predAgent ([predAgent, preyAgent] ++ wall_agents_2d predAgent 25) 0
      ⟨[], [], 2, []⟩ = ⟨[preyAgent.copy], [1], 1, [predAgent, preyAgent]⟩ := by
  have hwx : ¬agent_eq (wall_agent 2 [25, 0]) predAgent := by
    simp only [agent_eq, wall_agent_position, predAgent_position]
    norm_num
  have hwmx : ¬agent_eq (wall_agent 2 [-25, 0]) predAgent := by
    simp only [agent_eq, wall_agent_position, predAgent_position]
    norm_num
  have hwy : ¬agent_eq (wall_agent 2 [0, 25]) predAgent := by
    simp only [agent_eq, wall_agent_position, predAgent_position]
    norm_num
  rw [wall_agents_demo]
  simp only [List.cons_append, List.nil_append, neighbour_scan]
  rw [scan_demo_0, scan_demo_1,
    scan_demo_wall _ _ _ hwx (by rw [dist_pred_wall_x]; norm_num),
    scan_demo_wall _ _ _ hwmx (by rw [dist_pred_wall_mx]; norm_num),
    scan_demo_wall _ _ _ hwy (by rw [dist_pred_wall_y]; norm_num),
    scan_demo_wall _ _ _ hwy (by rw [dist_pred_wall_y]; norm_num)]

@[simp] lemma demoGroup_agents : demoGroup.agents = [predAgent, preyAgent] := rfl
@[simp] lemma demoGroup_length : demoGroup.length = 50 := rfl
@[simp] lemma demoGroup_dimension : demoGroup.dimension = 2 := rfl
@[simp] lemma demoGroup_nb : demoGroup.nb_agents = 2 := rfl
@[simp] lemma demoGroup_dead : demoGroup.dead_agents = [] := rfl

/-- The population after the predator's neighbour query has consumed
`preyAgent` but before the predator's own state update. -/
def killGroup : Group :=
  { agents := [predAgent], dead_agents := [preyAgent.copy], nb_agents := 1, length := 50,
    dimension := 2, density := 2 / 2500 }

lemma get_neighbours_demo :
    get_neighbours_aux demoGroup predAgent 5 true true =
      ([predAgent, preyAgent], killGroup, [1]) := by
  have hbranch : ¬(¬(true : Bool) = true ∨ demoGroup.dimension = 3) := by
    simp
  unfold get_neighbours_aux
  rw [if_neg hbranch, if_pos (show (true : Bool) = true from rfl),
    if_pos (show demoGroup.dimension = 2 from rfl)]
  simp only [demoGroup_agents, demoGroup_length, demoGroup_dead, demoGroup_nb]
  rw [show ((50 : ℤ) : ℝ) = 50 by norm_num, show (50 : ℝ) / 2 = 25 by norm_num, scan_demo]
  rfl

lemma accumulate_demo : accumulate predAgent [predAgent, preyAgent] 2 = ([2, 0], 9 / 4, 2) := by
  have h1 : contribute predAgent 2 (zeros 2, 0, 0) predAgent = ([1, 0], 1, 1) := by
    norm_num [contribute, vadd, zeros_two]
  have h2 : contribute predAgent 2 ([1, 0], 1, 1) preyAgent = ([2, 0], 9 / 4, 2) := by
    norm_num [contribute, vadd, vsub, smul, dist_pred_prey]
  unfold accumulate
  rw [show ([predAgent, preyAgent] : List Agent).length = 2 from rfl]
  simp only [List.foldl_cons, List.foldl_nil]
  rw [h1, h2]

lemma raw_speed_demo (r : ℕ → ℝ) : raw_speed predAgent [predAgent, preyAgent] 2 r = [1, 0] := by
  unfold raw_speed
  rw [accumulate_demo]
  norm_num [vdiv, vadd, List.range_succ]

/-- The predator's state after one `next_step` in the demo scenario. -/
def predAfter : Agent :=
  { position := [1 / 2, 0], speed := [1, 0], velocity := 9 / 8, noise := 0, sight := 5,
    field_sight := Real.pi / 2, agent_type := 1, fear := 1, max_velocity := 2 }

lemma next_step_demo (r : ℕ → ℝ) :
    next_step predAgent [predAgent, preyAgent] 2 50 (1 / 2) r = predAfter := by
  unfold next_step
  rw [accumulate_demo, raw_speed_demo]
  simp only []
  rw [norm_one_zero, show (Int.fdiv 50 2 : ℤ) = 25 by decide]
  norm_num [predAfter, wrap_vec, wrap_axis, vdiv, vadd, smul, predAgent, Agent.init]

/-- The demo population after one full `run(1)` sweep: the prey is dead, only
the updated predator remains, and `density` still holds its pre-kill value. -/
def demoAfter : Group :=
  { agents := [predAfter], dead_agents := [preyAgent.copy], nb_agents := 1, length := 50,
    dimension := 2, density := 2 / 2500 }

lemma run_iter_stop (cf cw : Bool) (st : ℝ) (rr : ℕ → ℕ → ℝ) (fuel i : ℕ) (g : Group)
    (h : ¬i < g.agents.length) : run_iter cf cw st rr fuel i g = g := by
  cases fuel with
  | zero => rfl
  | succ n =>
    rw [run_iter, if_neg h]

lemma run_iter_demo (rr : ℕ → ℕ → ℝ) :
    run_iter true true (1 / 2) rr 3 0 demoGroup = demoAfter := by
  rw [show (3 : ℕ) = 2 + 1 from rfl, run_iter]
  rw [if_pos (show 0 < demoGroup.agents.length by norm_num)]
  simp only []
  rw [show demoGroup.agents.getD 0 dummyAgent = predAgent from rfl]
  rw [if_pos (show predAgent.agent_type ≠ 3 by norm_num)]
  rw [predAgent_sight, get_neighbours_demo, demoGroup_dimension, demoGroup_length]
  rw [show (([predAgent, preyAgent], killGroup, [1]) :
      List Agent × Group × List ℕ).1 = [predAgent, preyAgent] from rfl]
  rw [show (([predAgent, preyAgent], killGroup, [1]) :
      List Agent × Group × List ℕ).2.2 = [1] from rfl]
  rw [show (([predAgent, preyAgent], killGroup, [1]) :
      List Agent × Group × List ℕ).2.1 = killGroup from rfl]
  rw [next_step_demo (rr 0)]
  rw [show shift_index [1] 0 = some 0 from rfl]
  show run_iter true true (1 / 2) rr 2 (0 + 1) demoAfter = demoAfter
  exact run_iter_stop true true (1 / 2) rr 2 (0 + 1) demoAfter (by norm_num [demoAfter])

lemma run_demo (r : ℕ → ℕ → ℕ → ℝ) : run demoGroup 1 true true (1 / 2) r = demoAfter := by
  unfold run
  rw [show List.range 1 = [0] from rfl]
  simp only [List.foldl_cons, List.foldl_nil]
  rw [show demoGroup.agents.length + 1 = 3 from rfl]
  exact run_iter_demo (r 0)

/-- C1: in the 2D length-50 population holding a predator and a normal agent at
distance `1/10`, one `run(1)` call with the default flags (field of view and
walls checked, step `0.5`) removes the normal agent from `agents` (no remaining
live agent compares equal to it) and appends its snapshot copy to
`dead_agents`, whatever noise draws `r` the run consumes. -/
theorem predation_scenario (r : ℕ → ℕ → ℕ → ℝ) :
    Group.init [predAgent, preyAgent] 50 2 = .ok demoGroup ∧
    dist predAgent preyAgent = 1 / 10 ∧
    (¬∃ a ∈ (run demoGroup 1 true true (1 / 2) r).agents, agent_eq a preyAgent) ∧
    preyAgent.copy ∈ (run demoGroup 1 true true (1 / 2) r).dead_agents := by
  refine ⟨demoGroup_init, dist_pred_prey, ?_, ?_⟩
  · rw [run_demo]
    rintro ⟨a, ha, heq⟩
    have ha2 : a = predAfter := by
      simpa [demoAfter] using ha
    subst ha2
    simp [agent_eq, predAfter] at heq
  · rw [run_demo]
    simp [demoAfter]

/-- Counterexample to C9 as stated: after the predation removal performed by
`run(1)` on the demo population, `density` still holds `2/2500` although only
one live agent remains in the length-50 square, so it differs from
`live count / length ** dimension = 1/2500`. -/
theorem density_stale_counterexample :
    (run demoGroup 1 true true (1 / 2) (fun _ _ _ => 0)).density ≠
      ((run demoGroup 1 true true (1 / 2) (fun _ _ _ => 0)).agents.length : ℝ) /
        ((run demoGroup 1 true true (1 / 2) (fun _ _ _ => 0)).length : ℝ) ^
          (run demoGroup 1 true true (1 / 2) (fun _ _ _ => 0)).dimension := by
  rw [run_demo]
  norm_num [demoAfter]

/-- C9 (amended): the density attribute is recomputed by the constructor and by
`add_agent` (where it equals the live count over `length ** dimension`), but a
predation removal inside the neighbour query leaves `density` unchanged at its
pre-removal value. -/
theorem density_amended :
    (∀ (ags : List Agent) (L : ℤ) (d : ℕ) (g : Group), Group.init ags L d = .ok g →
        g.density = (g.agents.length : ℝ) / (g.length : ℝ) ^ g.dimension) ∧
    (∀ (g : Group) (a : Agent) (g2 : Group), g.nb_agents = g.agents.length →
        add_agent g a = .ok g2 →
        g2.density = (g2.agents.length : ℝ) / (g2.length : ℝ) ^ g2.dimension) ∧
    (∀ (g : Group) (t : Agent) (dm : ℝ) (cf cw : Bool),
        (get_neighbours g t dm cf cw).2.density = g.density) := by
  refine ⟨?_, ?_, ?_⟩
  · intro ags L d g h
    unfold Group.init at h
    split_ifs at h
    simp only [Except.ok.injEq] at h
    subst h
    rfl
  · intro g a g2 hnb h
    unfold add_agent at h
    split_ifs at h
    simp only [Except.ok.injEq] at h
    subst h
    simp only [List.length_append, List.length_singleton, hnb]
    push_cast
    ring_nf
  · intro g t dm cf cw
    unfold get_neighbours get_neighbours_aux
    by_cases hb : ¬cf = true ∨ g.dimension = 3
    · rw [if_pos hb]
    · rw [if_neg hb]

/-- The population `movingGroup` after adding a copy of `stillAgent`. -/
def addedGroup : Group :=
  { agents := [movingAgent, stillAgent.copy], dead_agents := [], nb_agents := 2, length := 50,
    dimension := 2, density := 2 / 2500 }

lemma add_agent_moving : add_agent movingGroup stillAgent = .ok addedGroup := by
  unfold add_agent
  rw [if_neg (not_not_intro ⟨by simp [stillAgent, Agent.init, movingGroup],
    by simp [stillAgent, Agent.init, movingGroup]⟩)]
  refine congrArg Except.ok ?_
  simp only [addedGroup, movingGroup, Group.mk.injEq]
  norm_num

/-- Witness for the `add_agent` component of `density_amended`. -/
theorem density_amended_witness :
    movingGroup.nb_agents = movingGroup.agents.length ∧
    add_agent movingGroup stillAgent = .ok addedGroup ∧
    addedGroup.density =
      (addedGroup.agents.length : ℝ) / (addedGroup.length : ℝ) ^ addedGroup.dimension := by
  exact ⟨rfl, add_agent_moving,
    density_amended.2.1 movingGroup stillAgent addedGroup rfl add_agent_moving⟩

/-- C10: `Group.copy` feeds the cloned agents back through the constructor, so
the clone's `dead_agents` ledger is always empty. -/
theorem copy_resets_dead (g : Group) (hdim : g.dimension = 2 ∨ g.dimension = 3)
    (hagents : ∀ a ∈ g.agents,
      a.position.length = g.dimension ∧ a.speed.length = g.dimension) :
    ∃ g2, Group.copy g = .ok g2 ∧ g2.dead_agents = [] := by
  have hall : ∀ a ∈ g.agents.map Agent.copy,
      a.position.length = g.dimension ∧ a.speed.length = g.dimension := by
    intro a ha
    obtain ⟨b, hb, rfl⟩ := List.mem_map.mp ha
    simpa [Agent.copy, Agent.init] using hagents b hb
  unfold Group.copy Group.init
  rw [if_neg (not_not_intro hdim), if_neg (not_not_intro hall)]
  exact ⟨_, rfl, rfl⟩

/-- A population whose `dead_agents` ledger is not empty. -/
def dirtyGroup : Group :=
  { agents := [movingAgent], dead_agents := [stillAgent], nb_agents := 1, length := 50,
    dimension := 2, density := 1 / 2500 }

/-- Witness for `copy_resets_dead`: the original ledger is non-empty, the
clone's is empty. -/
theorem copy_resets_dead_witness :
    (dirtyGroup.dimension = 2 ∨ dirtyGroup.dimension = 3) ∧
    (∀ a ∈ dirtyGroup.agents,
      a.position.length = dirtyGroup.dimension ∧ a.speed.length = dirtyGroup.dimension) ∧
    dirtyGroup.dead_agents ≠ [] ∧
    ∃ g2, Group.copy dirtyGroup = .ok g2 ∧ g2.dead_agents = [] := by
  have h1 : dirtyGroup.dimension = 2 ∨ dirtyGroup.dimension = 3 := Or.inl rfl
  have h2 : ∀ a ∈ dirtyGroup.agents,
      a.position.length = dirtyGroup.dimension ∧ a.speed.length = dirtyGroup.dimension := by
    intro a ha
    have ha2 : a = movingAgent := by simpa [dirtyGroup] using ha
    subst ha2
    simp [movingAgent, Agent.init, dirtyGroup]
  exact ⟨h1, h2, by simp [dirtyGroup], copy_resets_dead dirtyGroup h1 h2⟩

/-! Ledger bookkeeping: each predation event recorded by the candidate scan
appends exactly one snapshot and marks exactly one index for the deferred
removal, and the sequential `pop` calls then remove exactly one agent each. -/

lemma scan_step_fields (L dmin : ℝ) (t : Agent) (i : ℕ) (st : ScanState) (a : Agent) :
    ((scan_step L dmin t i st a).dead_agents, (scan_step L dmin t i st a).dead_index,
      (scan_step L dmin t i st a).nb_agents) =
    if t.agent_type = 1 ∧ ¬(a.agent_type = 1 ∨ a.agent_type = 3) ∧
        dist t a < L / 25 ∧ i < st.nb_agents then
      (st.dead_agents ++ [a.copy], st.dead_index ++ [i], st.nb_agents - 1)
    else (st.dead_agents, st.dead_index, st.nb_agents) := by
  by_cases hk : t.agent_type = 1 ∧ ¬(a.agent_type = 1 ∨ a.agent_type = 3) ∧
      dist t a < L / 25 ∧ i < st.nb_agents
  · unfold scan_step
    rw [if_pos hk, if_pos hk]
    simp only []
    split_ifs <;> rfl
  · unfold scan_step
    rw [if_neg hk, if_neg hk]
    simp only []
    split_ifs <;> rfl

lemma neighbour_scan_invariant (L dmin : ℝ) (t : Agent) (l : List Agent) :
    ∀ (i : ℕ) (st : ScanState) (N D : ℕ),
      st.nb_agents + st.dead_index.length = N →
      st.dead_agents.length = D + st.dead_index.length →
      (∀ m, m < st.dead_index.length → st.dead_index.getD m 0 + m < N) →
      (neighbour_scan L dmin t l i st).nb_agents +
        (neighbour_scan L dmin t l i st).dead_index.length = N ∧
      (neighbour_scan L dmin t l i st).dead_agents.length =
        D + (neighbour_scan L dmin t l i st).dead_index.length ∧
      (∀ m, m < (neighbour_scan L dmin t l i st).dead_index.length →
        (neighbour_scan L dmin t l i st).dead_index.getD m 0 + m < N) := by
  induction l with
  | nil =>
    intro i st N D h1 h2 h3
    exact ⟨h1, h2, h3⟩
  | cons a rest ih =>
    intro i st N D h1 h2 h3
    rw [neighbour_scan]
    have hf := scan_step_fields L dmin t i st a
    by_cases hk : t.agent_type = 1 ∧ ¬(a.agent_type = 1 ∨ a.agent_type = 3) ∧
        dist t a < L / 25 ∧ i < st.nb_agents
    · rw [if_pos hk] at hf
      simp only [Prod.mk.injEq] at hf
      obtain ⟨e1, e2, e3⟩ := hf
      refine ih (i + 1) _ N D ?_ ?_ ?_
      · rw [e3, e2, List.length_append, List.length_singleton]
        omega
      · rw [e1, e2, List.length_append, List.length_append, List.length_singleton,
          List.length_singleton]
        omega
      · intro m hm
        rw [e2, List.length_append, List.length_singleton] at hm
        rw [e2]
        rcases Nat.lt_or_ge m st.dead_index.length with hlt | hge
        · rw [List.getD_append _ _ _ _ hlt]
          exact h3 m hlt
        · have hm2 : m = st.dead_index.length := by omega
          rw [List.getD_append_right _ _ _ _ hge, hm2]
          simp only [Nat.sub_self, List.getD_cons_zero]
          omega
    · rw [if_neg hk] at hf
      simp only [Prod.mk.injEq] at hf
      obtain ⟨e1, e2, e3⟩ := hf
      refine ih (i + 1) _ N D ?_ ?_ ?_
      · rw [e3, e2]; exact h1
      · rw [e1, e2]; exact h2
      · intro m hm
        rw [e2] at hm ⊢
        exact h3 m hm

lemma scan_step_dead_append (L dmin : ℝ) (t : Agent) (i : ℕ) (st : ScanState) (a : Agent) :
    ∃ ks, (scan_step L dmin t i st a).dead_agents = st.dead_agents ++ ks := by
  have hf := scan_step_fields L dmin t i st a
  by_cases hk : t.agent_type = 1 ∧ ¬(a.agent_type = 1 ∨ a.agent_type = 3) ∧
      dist t a < L / 25 ∧ i < st.nb_agents
  · rw [if_pos hk] at hf
    simp only [Prod.mk.injEq] at hf
    exact ⟨[a.copy], hf.1⟩
  · rw [if_neg hk] at hf
    simp only [Prod.mk.injEq] at hf
    exact ⟨[], by rw [List.append_nil]; exact hf.1⟩

lemma neighbour_scan_dead_append (L dmin : ℝ) (t : Agent) (l : List Agent) :
    ∀ (i : ℕ) (st : ScanState),
      ∃ ks, (neighbour_scan L dmin t l i st).dead_agents = st.dead_agents ++ ks := by
  induction l with
  | nil =>
    intro i st
    exact ⟨[], by rw [List.append_nil]; rfl⟩
  | cons a rest ih =>
    intro i st
    obtain ⟨ks1, hk1⟩ := scan_step_dead_append L dmin t i st a
    obtain ⟨ks2, hk2⟩ := ih (i + 1) (scan_step L dmin t i st a)
    refine ⟨ks1 ++ ks2, ?_⟩
    rw [neighbour_scan, hk2, hk1, List.append_assoc]

lemma foldl_eraseIdx_length {α : Type} (idxs : List ℕ) :
    ∀ l : List α, (∀ m, m < idxs.length → idxs.getD m 0 + m < l.length) →
      (idxs.foldl (fun acc i => acc.eraseIdx i) l).length + idxs.length = l.length := by
  induction idxs with
  | nil =>
    intro l _
    simp
  | cons i rest ih =>
    intro l h
    have hi : i < l.length := by
      have := h 0 (by simp)
      simpa using this
    have hlen : (l.eraseIdx i).length + 1 = l.length := List.length_eraseIdx_add_one hi
    rw [List.foldl_cons]
    have hrest : ∀ m, m < rest.length → rest.getD m 0 + m < (l.eraseIdx i).length := by
      intro m hm
      have hh := h (m + 1) (by simpa using Nat.succ_lt_succ hm)
      rw [List.getD_cons_succ] at hh
      omega
    have := ih (l.eraseIdx i) hrest
    simp only [List.length_cons]
    omega

/-- The bookkeeping preserved by a neighbour query and by a sweep: the total of
live and dead agents is unchanged, the dead ledger only grows by appending, and
the domain parameters stay fixed. -/
def ledger_rel (g g2 : Group) : Prop :=
  g2.agents.length + g2.dead_agents.length = g.agents.length + g.dead_agents.length ∧
  (∃ ks, g2.dead_agents = g.dead_agents ++ ks) ∧
  g2.dimension = g.dimension ∧ g2.length = g.length

lemma ledger_rel_refl (g : Group) : ledger_rel g g := ⟨rfl, ⟨[], by simp⟩, rfl, rfl⟩

lemma ledger_rel_trans {g1 g2 g3 : Group} (h12 : ledger_rel g1 g2) (h23 : ledger_rel g2 g3) :
    ledger_rel g1 g3 := by
  obtain ⟨a1, ⟨k1, e1⟩, d1, l1⟩ := h12
  obtain ⟨a2, ⟨k2, e2⟩, d2, l2⟩ := h23
  exact ⟨by omega, ⟨k1 ++ k2, by rw [e2, e1, List.append_assoc]⟩, d2.trans d1, l2.trans l1⟩

/-- The live count attribute agrees with the length of the live list. -/
def nb_ok (g : Group) : Prop := g.nb_agents = g.agents.length

lemma scan_group_ledger (L dm : ℝ) (t : Agent) (total : List Agent) (g : Group)
    (hnb : nb_ok g) :
    ((neighbour_scan L dm t total 0 ⟨g.dead_agents, [], g.nb_agents, []⟩).dead_index.foldl
        (fun l i => l.eraseIdx i) g.agents).length +
      (neighbour_scan L dm t total 0 ⟨g.dead_agents, [], g.nb_agents, []⟩).dead_agents.length =
      g.agents.length + g.dead_agents.length ∧
    (neighbour_scan L dm t total 0 ⟨g.dead_agents, [], g.nb_agents, []⟩).nb_agents =
      ((neighbour_scan L dm t total 0 ⟨g.dead_agents, [], g.nb_agents, []⟩).dead_index.foldl
        (fun l i => l.eraseIdx i) g.agents).length ∧
    ∃ ks, (neighbour_scan L dm t total 0 ⟨g.dead_agents, [], g.nb_agents, []⟩).dead_agents =
      g.dead_agents ++ ks := by
  obtain ⟨h1, h2, h3⟩ := neighbour_scan_invariant L dm t total 0
    ⟨g.dead_agents, [], g.nb_agents, []⟩ g.nb_agents g.dead_agents.length
    (by simp) (by simp) (by simp)
  have hb : ∀ m,
      m < (neighbour_scan L dm t total 0
        ⟨g.dead_agents, [], g.nb_agents, []⟩).dead_index.length →
      (neighbour_scan L dm t total 0
        ⟨g.dead_agents, [], g.nb_agents, []⟩).dead_index.getD m 0 + m < g.agents.length := by
    intro m hm
    have := h3 m hm
    rw [nb_ok] at hnb
    omega
  have he := foldl_eraseIdx_length _ g.agents hb
  have hd := neighbour_scan_dead_append L dm t total 0 ⟨g.dead_agents, [], g.nb_agents, []⟩
  rw [nb_ok] at hnb
  refine ⟨by omega, by omega, ?_⟩
  simpa using hd

lemma get_neighbours_aux_ledger (g : Group) (t : Agent) (dm : ℝ) (cf cw : Bool)
    (hnb : nb_ok g) :
    ledger_rel g (get_neighbours_aux g t dm cf cw).2.1 ∧
    nb_ok (get_neighbours_aux g t dm cf cw).2.1 := by
  unfold get_neighbours_aux
  by_cases hb : ¬cf = true ∨ g.dimension = 3
  · rw [if_pos hb]
    exact ⟨ledger_rel_refl g, hnb⟩
  · rw [if_neg hb]
    simp only []
    obtain ⟨s1, s2, s3⟩ := scan_group_ledger ((g.length : ℤ) : ℝ) dm t
      (if cw = true then
        g.agents ++
          (if g.dimension = 2 then wall_agents_2d t (((g.length : ℤ) : ℝ) / 2)
           else wall_agents_3d t (((g.length : ℤ) : ℝ) / 2))
       else g.agents) g hnb
    exact ⟨⟨s1, s3, rfl, rfl⟩, s2⟩

lemma set_group_ledger (h : Group) (j : ℕ) (a2 : Agent) :
    ledger_rel h { h with agents := h.agents.set j a2 } ∧
    (nb_ok h → nb_ok { h with agents := h.agents.set j a2 }) := by
  constructor
  · exact ⟨by simp, ⟨[], by simp⟩, rfl, rfl⟩
  · intro hn
    rw [nb_ok] at hn ⊢
    simpa using hn

lemma run_iter_ledger (cf cw : Bool) (stp : ℝ) (rr : ℕ → ℕ → ℝ) :
    ∀ (fuel i : ℕ) (g : Group), nb_ok g →
      ledger_rel g (run_iter cf cw stp rr fuel i g) ∧
      nb_ok (run_iter cf cw stp rr fuel i g) := by
  intro fuel
  induction fuel with
  | zero =>
    intro i g hnb
    exact ⟨ledger_rel_refl g, hnb⟩
  | succ n ih =>
    intro i g hnb
    rw [run_iter]
    by_cases hi : i < g.agents.length
    · rw [if_pos hi]
      simp only []
      by_cases ht : (g.agents.getD i dummyAgent).agent_type ≠ 3
      · rw [if_pos ht]
        obtain ⟨krel, knb⟩ := get_neighbours_aux_ledger g (g.agents.getD i dummyAgent)
          (g.agents.getD i dummyAgent).sight cf cw hnb
        cases hsi : shift_index (get_neighbours_aux g (g.agents.getD i dummyAgent)
            (g.agents.getD i dummyAgent).sight cf cw).2.2 i with
        | some j =>
          obtain ⟨srel, snb⟩ := set_group_ledger
            (get_neighbours_aux g (g.agents.getD i dummyAgent)
              (g.agents.getD i dummyAgent).sight cf cw).2.1 j
            (next_step (g.agents.getD i dummyAgent)
              (get_neighbours_aux g (g.agents.getD i dummyAgent)
                (g.agents.getD i dummyAgent).sight cf cw).1 g.dimension g.length stp (rr i))
          obtain ⟨rrel, rnb⟩ := ih (i + 1) _ (snb knb)
          exact ⟨ledger_rel_trans (ledger_rel_trans krel srel) rrel, rnb⟩
        | none =>
          obtain ⟨rrel, rnb⟩ := ih (i + 1) _ knb
          exact ⟨ledger_rel_trans krel rrel, rnb⟩
      · rw [if_neg ht]
        exact ih (i + 1) g hnb
    · rw [if_neg hi]
      exact ⟨ledger_rel_refl g, hnb⟩

lemma run_ledger (g : Group) (steps : ℕ) (cf cw : Bool) (stp : ℝ) (r : ℕ → ℕ → ℕ → ℝ)
    (hnb : nb_ok g) :
    ledger_rel g (run g steps cf cw stp r) ∧ nb_ok (run g steps cf cw stp r) := by
  unfold run
  generalize List.range steps = l
  induction l generalizing g with
  | nil => exact ⟨ledger_rel_refl g, hnb⟩
  | cons s rest ih =>
    rw [List.foldl_cons]
    obtain ⟨hrel, hn⟩ := run_iter_ledger cf cw stp (r s) (g.agents.length + 1) 0 g hnb
    obtain ⟨hrel2, hn2⟩ := ih _ hn
    exact ⟨ledger_rel_trans hrel hrel2, hn2⟩

lemma apply_op_add_eq (g : Group) (a : Agent)
    (h : a.position.length = g.dimension ∧ a.speed.length = g.dimension) :
    apply_op g (.add a) =
      { g with
        agents := g.agents ++ [a.copy]
        nb_agents := g.nb_agents + 1
        density := ((g.nb_agents : ℝ) + 1) / (g.length : ℝ) ^ g.dimension } := by
  simp only [apply_op]
  unfold add_agent
  rw [if_neg (not_not_intro h)]

lemma apply_ops_cons (g : Group) (op : Op) (rest : List Op) :
    apply_ops g (op :: rest) = apply_ops (apply_op g op) rest := rfl

lemma apply_ops_ledger (d : ℕ) (ops : List Op) :
    ∀ g : Group, nb_ok g → g.dimension = d →
      (∀ a : Agent, Op.add a ∈ ops → a.position.length = d ∧ a.speed.length = d) →
      (apply_ops g ops).agents.length + (apply_ops g ops).dead_agents.length =
        g.agents.length + g.dead_agents.length + num_adds ops ∧
      nb_ok (apply_ops g ops) ∧ (apply_ops g ops).dimension = d := by
  induction ops with
  | nil =>
    intro g h1 h2 _
    exact ⟨by simp [apply_ops, num_adds], h1, h2⟩
  | cons op rest ih =>
    intro g h1 h2 h3
    rw [apply_ops_cons]
    cases op with
    | add a =>
      have hda : a.position.length = g.dimension ∧ a.speed.length = g.dimension := by
        rw [h2]
        exact h3 a (List.mem_cons_self _ _)
      have he := apply_op_add_eq g a hda
      rw [he]
      have hn2 : nb_ok
          { g with
            agents := g.agents ++ [a.copy]
            nb_agents := g.nb_agents + 1
            density := ((g.nb_agents : ℝ) + 1) / (g.length : ℝ) ^ g.dimension } := by
        rw [nb_ok] at h1 ⊢
        simp [h1]
      obtain ⟨r1, r2, r3⟩ := ih _ hn2 h2
        (fun b hb => h3 b (List.mem_cons_of_mem _ hb))
      refine ⟨?_, r2, r3⟩
      rw [r1]
      simp only [List.length_append, List.length_singleton, num_adds]
      omega
    | run steps cf cw dt rand =>
      rw [show apply_op g (Op.run steps cf cw dt rand) = run g steps cf cw dt rand from rfl]
      have hrun := run_ledger g steps cf cw dt rand h1
      obtain ⟨⟨a1, _, dim1, _⟩, hn2⟩ := hrun
      have hdim2 : (run g steps cf cw dt rand).dimension = d := by rw [dim1, h2]
      obtain ⟨r1, r2, r3⟩ := ih _ hn2 hdim2
        (fun b hb => h3 b (List.mem_cons_of_mem _ hb))
      refine ⟨?_, r2, r3⟩
      rw [r1]
      simp only [num_adds]
      omega

/-- C2: starting from a constructed population and applying any sequence of
`add_agent` and `run` operations whose added agents are dimension-correct, the
final live count plus the dead ledger length equals the number of agents ever
present (initial plus added); moreover any single neighbour query preserves the
live-plus-dead total and only appends to the dead ledger (the removal being
deferred to the `pop` loop after the scan). -/
theorem predation_ledger (ags : List Agent) (L : ℤ) (d : ℕ) (g0 : Group)
    (hinit : Group.init ags L d = .ok g0) (ops : List Op)
    (hadd : ∀ a : Agent, Op.add a ∈ ops → a.position.length = d ∧ a.speed.length = d) :
    ((apply_ops g0 ops).agents.length + (apply_ops g0 ops).dead_agents.length =
      ags.length + num_adds ops) ∧
    (∀ (g : Group) (t : Agent) (dm : ℝ) (cf cw : Bool), nb_ok g →
      (get_neighbours g t dm cf cw).2.agents.length +
        (get_neighbours g t dm cf cw).2.dead_agents.length =
        g.agents.length + g.dead_agents.length ∧
      ∃ ks, (get_neighbours g t dm cf cw).2.dead_agents = g.dead_agents ++ ks) := by
  have hfields : g0.agents = ags ∧ g0.dead_agents = [] ∧ g0.nb_agents = ags.length ∧
      g0.dimension = d := by
    unfold Group.init at hinit
    split_ifs at hinit
    simp only [Except.ok.injEq] at hinit
    subst hinit
    exact ⟨rfl, rfl, rfl, rfl⟩
  obtain ⟨ha, hd0, hn, hdim⟩ := hfields
  constructor
  · have hmain := (apply_ops_ledger d ops g0 (by rw [nb_ok, hn, ha]) hdim hadd).1
    rw [ha, hd0] at hmain
    simpa using hmain
  · intro g t dm cf cw hnb
    have hq := get_neighbours_aux_ledger g t dm cf cw hnb
    exact ⟨hq.1.1, hq.1.2.1⟩

/-- The empty 2D population of domain length 50. -/
def emptyGroup : Group :=
  { agents := [], dead_agents := [], nb_agents := 0, length := 50, dimension := 2,
    density := 0 }

lemma emptyGroup_init : Group.init [] 50 2 = .ok emptyGroup := by
  unfold Group.init
  rw [if_neg (not_not_intro (Or.inl rfl)),
    if_neg (not_not_intro (fun a ha => absurd ha (List.not_mem_nil a)))]
  refine congrArg Except.ok ?_
  simp only [emptyGroup, Group.mk.injEq]
  norm_num

/-- Witness for `predation_ledger`: an empty population plus one added agent. -/
theorem predation_ledger_witness :
    Group.init [] 50 2 = .ok emptyGroup ∧
    (∀ a : Agent, Op.add a ∈ [Op.add movingAgent] →
      a.position.length = 2 ∧ a.speed.length = 2) ∧
    (apply_ops emptyGroup [Op.add movingAgent]).agents.length +
      (apply_ops emptyGroup [Op.add movingAgent]).dead_agents.length =
      ([] : List Agent).length + num_adds [Op.add movingAgent] := by
  have h2 : ∀ a : Agent, Op.add a ∈ [Op.add movingAgent] →
      a.position.length = 2 ∧ a.speed.length = 2 := by
    intro a ha
    simp only [List.mem_singleton, Op.add.injEq] at ha
    subst ha
    simp [movingAgent, Agent.init]
  exact ⟨emptyGroup_init, h2,
    (predation_ledger [] 50 2 emptyGroup emptyGroup_init [Op.add movingAgent] h2).1⟩

/-- C7 evaluation: in 2D the synthesized wall phantoms are four agents at
`+x`, `-x`, `+y` and again `+y` — the third and fourth coincide, and no
phantom sits on the `-y` face. -/
theorem wall_agents_missing_face :
    (wall_agents_2d predAgent 25).length = 4 ∧
    wall_agents_2d predAgent 25 =
      [wall_agent 2 [25, 0], wall_agent 2 [-25, 0], wall_agent 2 [0, 25],
       wall_agent 2 [0, 25]] ∧
    (∀ a ∈ wall_agents_2d predAgent 25, a.position ≠ [(0 : ℝ), -25]) := by
  refine ⟨rfl, wall_agents_demo, ?_⟩
  intro a ha
  rw [wall_agents_demo] at ha
  simp only [List.mem_cons, List.not_mem_nil, or_false] at ha
  rcases ha with h | h | h | h <;> subst h <;> rw [wall_agent_position] <;>
    · intro hc
      simp only [List.cons.injEq] at hc
      norm_num at hc

/-- A normal 2D agent heading straight up (`+y`), with a stored half-angle of
view `3/4 < π/2`. -/
def fovTarget : Agent := Agent.init [0, 0] [0, 1] 1 0 5 (3 / 2) 0 1

/-- A normal agent at distance 1 directly behind `fovTarget`. -/
def fovBehind : Agent := Agent.init [0, -1] [0, 1] 1 0 5 (3 / 2) 0 1

/-- The population `[fovTarget, fovBehind]` in the 2D length-50 domain. -/
def fovGroup : Group :=
  { agents := [fovTarget, fovBehind], dead_agents := [], nb_agents := 2, length := 50,
    dimension := 2, density := 2 / 2500 }

@[simp] lemma fovTarget_type : fovTarget.agent_type = 0 := rfl
@[simp] lemma fovTarget_position : fovTarget.position = [0, 0] := rfl
@[simp] lemma fovTarget_speed : fovTarget.speed = [0, 1] := rfl

@[simp] lemma fovTarget_field_sight : fovTarget.field_sight = 3 / 4 := by
  norm_num [fovTarget, Agent.init]

@[simp] lemma fovBehind_type : fovBehind.agent_type = 0 := rfl
@[simp] lemma fovBehind_position : fovBehind.position = [0, -1] := rfl

lemma np_angle_up : np_angle [(0 : ℝ), 1] = Real.pi / 2 := by
  have hI : ((0 : ℝ) : ℂ) + ((1 : ℝ) : ℂ) * Complex.I = Complex.I := by
    push_cast
    ring
  unfold np_angle
  simp only [List.getD_cons_zero, List.getD_cons_succ]
  rw [hI, Complex.arg_I]

lemma np_angle_down : np_angle [(0 : ℝ), -1] = -(Real.pi / 2) := by
  have hI : ((0 : ℝ) : ℂ) + ((-1 : ℝ) : ℂ) * Complex.I = -Complex.I := by
    push_cast
    ring
  unfold np_angle
  simp only [List.getD_cons_zero, List.getD_cons_succ]
  rw [hI, Complex.arg_neg_I]

lemma pymod_half_pi_two : pymod (Real.pi / 2) 2 = Real.pi / 2 := by
  unfold pymod
  have hf : ⌊Real.pi / 2 / 2⌋ = 0 := by
    rw [Int.floor_eq_zero_iff, Set.mem_Ico]
    constructor
    · positivity
    · nlinarith [Real.pi_lt_d2]
  rw [hf]
  push_cast
  ring

lemma pymod_neg_half_pi : pymod (-(Real.pi / 2)) (2 * Real.pi) = 3 * Real.pi / 2 := by
  unfold pymod
  have hq : -(Real.pi / 2) / (2 * Real.pi) = -(1 / 4) := by
    rw [div_eq_iff (by positivity : (2 : ℝ) * Real.pi ≠ 0)]
    ring
  have hf : ⌊-(Real.pi / 2) / (2 * Real.pi)⌋ = -1 := by
    rw [hq, Int.floor_eq_iff]
    norm_num
  rw [hf]
  push_cast
  ring

@[simp] lemma fovGroup_agents : fovGroup.agents = [fovTarget, fovBehind] := rfl
@[simp] lemma fovGroup_length : fovGroup.length = 50 := rfl
@[simp] lemma fovGroup_dimension : fovGroup.dimension = 2 := rfl
@[simp] lemma fovGroup_nb : fovGroup.nb_agents = 2 := rfl
@[simp] lemma fovGroup_dead : fovGroup.dead_agents = [] := rfl

lemma dist_fov_self : dist fovTarget fovTarget = 0 := by
  rw [dist_eval _ _ 0 0 0 0 fovTarget_position fovTarget_position]
  rw [show ((0 : ℝ) - 0) ^ 2 + (0 - 0) ^ 2 = 0 by norm_num, Real.sqrt_zero]

lemma dist_fov_behind : dist fovTarget fovBehind = 1 := by
  rw [dist_eval _ _ 0 0 0 (-1) fovTarget_position fovBehind_position]
  rw [show ((0 : ℝ) - 0) ^ 2 + (0 - -1) ^ 2 = 1 by norm_num, Real.sqrt_one]

lemma fov_step0 :
    scan_step 50 5 fovTarget 0 ⟨[], [], 2, []⟩ fovTarget = ⟨[], [], 2, [fovTarget]⟩ := by
  have hkill : ¬(fovTarget.agent_type = 1 ∧
      ¬(fovTarget.agent_type = 1 ∨ fovTarget.agent_type = 3) ∧
      dist fovTarget fovTarget < 50 / 25 ∧
      0 < (⟨[], [], 2, []⟩ : ScanState).nb_agents) := by norm_num
  have hself : ¬¬agent_eq fovTarget fovTarget :=
    not_not_intro (rfl : fovTarget.position = fovTarget.position)
  simp only [scan_step]
  rw [if_neg hkill, if_neg hself]
  rfl

lemma fov_step1 :
    scan_step 50 5 fovTarget 1 ⟨[], [], 2, [fovTarget]⟩ fovBehind =
      ⟨[], [], 2, [fovTarget, fovBehind]⟩ := by
  have hkill : ¬(fovTarget.agent_type = 1 ∧
      ¬(fovBehind.agent_type = 1 ∨ fovBehind.agent_type = 3) ∧
      dist fovTarget fovBehind < 50 / 25 ∧
      1 < (⟨[], [], 2, [fovTarget]⟩ : ScanState).nb_agents) := by norm_num
  have hne : ¬agent_eq fovBehind fovTarget := by
    simp only [agent_eq, fovBehind_position, fovTarget_position]
    intro hc
    simp only [List.cons.injEq] at hc
    norm_num at hc
  have htype : fovBehind.agent_type ≠ 3 := by norm_num
  have happ : dist fovTarget fovBehind ≤ 5 ∧
      (fovBehind.agent_type = 1 ∨
        |pymod (np_angle fovTarget.speed) 2 * Real.pi -
          pymod (np_angle (vsub fovBehind.position fovTarget.position)) (2 * Real.pi)| ≤
          fovTarget.field_sight) := by
    refine ⟨by rw [dist_fov_behind]; norm_num, Or.inr ?_⟩
    have hv : vsub fovBehind.position fovTarget.position = [0, -1] := by
      simp [vsub]
    rw [fovTarget_speed, np_angle_up, pymod_half_pi_two, hv, np_angle_down,
      pymod_neg_half_pi, fovTarget_field_sight]
    rw [abs_of_nonneg (by nlinarith [Real.pi_gt_three] :
      (0 : ℝ) ≤ Real.pi / 2 * Real.pi - 3 * Real.pi / 2)]
    nlinarith [Real.pi_gt_d2, Real.pi_lt_d2]
  simp only [scan_step]
  rw [if_neg hkill, if_pos hne, if_pos htype, if_pos happ]
  rfl

lemma fov_aux_field :
    get_neighbours_aux fovGroup fovTarget 5 true false =
      ([fovTarget, fovBehind], fovGroup, []) := by
  unfold get_neighbours_aux
  rw [if_neg (show ¬(¬(true : Bool) = true ∨ fovGroup.dimension = 3) by simp),
    if_neg (show ¬((false : Bool) = true) by simp)]
  simp only [fovGroup_agents, fovGroup_length, fovGroup_dead, fovGroup_nb]
  rw [show ((50 : ℤ) : ℝ) = 50 by norm_num]
  simp only [neighbour_scan]
  rw [fov_step0, fov_step1]
  rfl

lemma fov_aux_nofield :
    get_neighbours_aux fovGroup fovTarget 5 false false =
      (dist_filter fovTarget 5 fovGroup.agents, fovGroup, []) := by
  unfold get_neighbours_aux
  rw [if_pos (Or.inl (show ¬(false : Bool) = true by simp)),
    if_neg (show ¬((false : Bool) = true) by simp)]

lemma fov_filter : dist_filter fovTarget 5 [fovTarget, fovBehind] = [fovTarget, fovBehind] := by
  have h1 : dist fovTarget fovTarget ≤ 5 := by rw [dist_fov_self]; norm_num
  have h2 : dist fovTarget fovBehind ≤ 5 := by rw [dist_fov_behind]; norm_num
  simp only [dist_filter]
  rw [if_pos h1, if_pos h2]

/-- C6 evaluation: `fovBehind` sits at angular difference π directly behind
`fovTarget`, whose half field of view is `3/4 < π/2`, yet the neighbour query
with the field-of-view check enabled still returns it — the source computes the
heading angle as `np.angle(...) % 2 * math.pi`, i.e. `(angle % 2) * π ≈ 4.93`
instead of `angle % (2π) = π/2`, making the angular difference ≈ 0.22.  With
the check disabled the candidate is returned as well. -/
theorem fov_behind_included :
    fovTarget.field_sight < Real.pi / 2 ∧
    dist fovTarget fovBehind = 1 ∧
    |np_angle fovTarget.speed - np_angle (vsub fovBehind.position fovTarget.position)| =
      Real.pi ∧
    fovBehind ∈ (get_neighbours fovGroup fovTarget 5 true false).1 ∧
    fovBehind ∈ (get_neighbours fovGroup fovTarget 5 false false).1 := by
  refine ⟨?_, dist_fov_behind, ?_, ?_, ?_⟩
  · rw [fovTarget_field_sight]
    nlinarith [Real.pi_gt_three]
  · have hv : vsub fovBehind.position fovTarget.position = [0, -1] := by
      simp [vsub]
    rw [fovTarget_speed, np_angle_up, hv, np_angle_down,
      show Real.pi / 2 - -(Real.pi / 2) = Real.pi by ring]
    exact abs_of_nonneg Real.pi_pos.le
  · rw [show (get_neighbours fovGroup fovTarget 5 true false).1 =
        (get_neighbours_aux fovGroup fovTarget 5 true false).1 from rfl, fov_aux_field]
    simp
  · rw [show (get_neighbours fovGroup fovTarget 5 false false).1 =
        (get_neighbours_aux fovGroup fovTarget 5 false false).1 from rfl, fov_aux_nofield,
      fovGroup_agents, fov_filter]
    simp

end

end Vicsek
